import Mathlib

/- Verification of the transformation engine of portainer2k8s
   (portainer_to_k8s.py): name sanitization, environment mapping,
   volume mapping, port mapping and manifest building, shallow-embedded
   as executable Lean definitions over lists of characters and
   insertion-ordered association lists. -/

namespace PortainerToK8s

/- Section: character classes and Python string primitives. -/

/-- The character class of the regex [a-z0-9-] used by sanitize_name. -/
def isAllowed (c : Char) : Bool := c.isLower || c.isDigit || c == '-'

/-- Lower-case alphanumeric characters, [a-z0-9]. -/
def isAlnum (c : Char) : Bool := c.isLower || c.isDigit

/-- One left-to-right pass of re.sub over the pattern [^a-z0-9-]+ with
    replacement "-". The Boolean records whether the scan is inside a run of
    disallowed characters, so that each maximal run yields a single dash. -/
def subRunsAux : Bool → List Char → List Char
  | _, [] => []
  | inRun, c :: cs =>
    if isAllowed c then c :: subRunsAux false cs
    else if inRun then subRunsAux true cs
    else '-' :: subRunsAux true cs

/-- re.sub(r"[^a-z0-9-]+", "-", ·) on a list of characters. -/
def subRuns (l : List Char) : List Char := subRunsAux false l

/-- Python str.strip("-"): drop leading and trailing dashes. -/
def stripDash (l : List Char) : List Char :=
  ((l.dropWhile (fun c => c == '-')).reverse.dropWhile (fun c => c == '-')).reverse

/-- sanitize_name from portainer_to_k8s.py:
    re.sub(r"[^a-z0-9-]+", "-", name.lower()).strip("-"), with the literal
    fallback "container" when the result is empty. -/
def sanitize_name (name : String) : String :=
  let cs := stripDash (subRuns (name.data.map Char.toLower))
  if cs.isEmpty then "container" else String.mk cs

/-- Decidable form of the regex ^[a-z0-9]([a-z0-9-]*[a-z0-9])?$ :
    nonempty, every character in [a-z0-9-], and the first and last
    characters alphanumeric. -/
def matchesNamePattern (s : String) : Bool :=
  !s.data.isEmpty && s.data.all isAllowed
    && (s.data.head?.elim false isAlnum) && (s.data.getLast?.elim false isAlnum)

/- Section: generic list lemmas used by the sanitizer proofs. -/

theorem length_dropWhile_le {α} (p : α → Bool) (l : List α) :
    (l.dropWhile p).length ≤ l.length := by
  induction l with
  | nil => simp [List.dropWhile]
  | cons a l ih =>
    rw [List.dropWhile_cons]
    split
    · exact Nat.le_succ_of_le ih
    · exact Nat.le_refl _

theorem dropWhile_head_false {α} (p : α → Bool) :
    ∀ (l : List α) {c : α} {cs : List α}, l.dropWhile p = c :: cs → p c = false := by
  intro l
  induction l with
  | nil => intro c cs h; simp [List.dropWhile] at h
  | cons a l ih =>
    intro c cs h
    rw [List.dropWhile_cons] at h
    by_cases hp : p a
    · rw [if_pos hp] at h
      exact ih h
    · rw [if_neg hp] at h
      cases h
      exact Bool.of_not_eq_true hp

theorem dropWhile_eq_self_of_head {α} (p : α → Bool) (l : List α)
    (h : ∀ c cs, l = c :: cs → p c = false) : l.dropWhile p = l := by
  cases l with
  | nil => rfl
  | cons a l => rw [List.dropWhile_cons, if_neg]; simp [h a l rfl]

theorem getLast?_of_suffix {α} {x y : List α} (h : x <:+ y) (hne : x ≠ []) :
    y.getLast? = x.getLast? := by
  obtain ⟨t, rfl⟩ := h
  rw [List.getLast?_append]
  have hs : x.getLast?.isSome = true := List.getLast?_isSome.mpr hne
  rcases hx : x.getLast? with _ | c
  · rw [hx] at hs; simp at hs
  · rfl

/- Section: properties of the substitution pass. -/

theorem mem_subRunsAux_allowed :
    ∀ (l : List Char) (b : Bool) {c : Char}, c ∈ subRunsAux b l → isAllowed c = true := by
  intro l
  induction l with
  | nil => intro b c h; simp [subRunsAux] at h
  | cons a l ih =>
    intro b c h
    rw [subRunsAux] at h
    by_cases ha : isAllowed a
    · rw [if_pos ha] at h
      rcases List.mem_cons.mp h with rfl | h
      · exact ha
      · exact ih false h
    · rw [if_neg ha] at h
      cases b with
      | true => exact ih true (by simpa using h)
      | false =>
        simp only [Bool.false_eq_true, if_false] at h
        rcases List.mem_cons.mp h with rfl | h
        · rfl
        · exact ih true h

theorem subRunsAux_of_allowed :
    ∀ (l : List Char) (b : Bool), (∀ c ∈ l, isAllowed c = true) → subRunsAux b l = l := by
  intro l
  induction l with
  | nil => intro b _; rfl
  | cons a l ih =>
    intro b h
    rw [subRunsAux, if_pos (h a (List.mem_cons_self a l)), ih false (fun c hc => h c (List.mem_cons_of_mem a hc))]

/- Section: properties of the strip pass. -/

theorem mem_stripDash {c : Char} {l : List Char} (h : c ∈ stripDash l) : c ∈ l := by
  unfold stripDash at h
  rw [List.mem_reverse] at h
  have h1 := (List.dropWhile_suffix _).subset h
  rw [List.mem_reverse] at h1
  exact (List.dropWhile_suffix _).subset h1

theorem stripDash_getLast? {l : List Char} {c : Char}
    (h : (stripDash l).getLast? = some c) : (c == '-') = false := by
  unfold stripDash at h
  rw [List.getLast?_reverse] at h
  rcases hX : ((l.dropWhile (fun c => c == '-')).reverse.dropWhile (fun c => c == '-')) with
    _ | ⟨d, ds⟩
  · rw [hX] at h; simp at h
  · rw [hX] at h
    simp only [List.head?_cons, Option.some.injEq] at h
    subst h
    exact dropWhile_head_false (fun c => c == '-') _ hX

theorem stripDash_head? {l : List Char} {c : Char}
    (h : (stripDash l).head? = some c) : (c == '-') = false := by
  unfold stripDash at h
  rw [List.head?_reverse] at h
  set X := ((l.dropWhile (fun c => c == '-')).reverse.dropWhile (fun c => c == '-')) with hXdef
  have hXne : X ≠ [] := by
    intro he
    rw [he] at h
    simp at h
  have hsuf : X <:+ (l.dropWhile (fun c => c == '-')).reverse := List.dropWhile_suffix _
  have := getLast?_of_suffix hsuf hXne
  rw [← this, List.getLast?_reverse] at h
  rcases hY : (l.dropWhile (fun c => c == '-')) with _ | ⟨d, ds⟩
  · rw [hY] at h; simp at h
  · rw [hY] at h
    simp only [List.head?_cons, Option.some.injEq] at h
    subst h
    exact dropWhile_head_false (fun c => c == '-') _ hY

theorem stripDash_eq_self {l : List Char}
    (hh : ∀ c, l.head? = some c → (c == '-') = false)
    (hl : ∀ c, l.getLast? = some c → (c == '-') = false) : stripDash l = l := by
  unfold stripDash
  have h1 : l.dropWhile (fun c => c == '-') = l := by
    apply dropWhile_eq_self_of_head
    intro c cs hc
    exact hh c (by rw [hc]; rfl)
  rw [h1]
  have h2 : l.reverse.dropWhile (fun c => c == '-') = l.reverse := by
    apply dropWhile_eq_self_of_head
    intro c cs hc
    apply hl c
    rw [← List.head?_reverse, hc]
    rfl
  rw [h2, List.reverse_reverse]

/- Section: lower-casing fixes the allowed characters. -/

theorem toLower_of_allowed {c : Char} (h : isAllowed c = true) : c.toLower = c := by
  simp only [isAllowed, Char.isLower, Char.isDigit, Bool.or_eq_true, Bool.and_eq_true,
    decide_eq_true_eq, beq_iff_eq] at h
  unfold Char.toLower
  rcases h with (h | h) | h
  · have h1 : ((97 : UInt32)).toNat ≤ c.val.toNat := h.1
    have e : ((97 : UInt32)).toNat = 97 := rfl
    rw [if_neg]
    simp only [Char.toNat] at *
    omega
  · have h2 : c.val.toNat ≤ ((57 : UInt32)).toNat := h.2
    have e : ((57 : UInt32)).toNat = 57 := rfl
    rw [if_neg]
    simp only [Char.toNat] at *
    omega
  · subst h
    decide

/- Section: the spec's wording of the substitution, and its equivalence
   with the implementation's scan. -/

/-- Modelled from the spec wording of the substitution step: replace every
    maximal run of characters outside [a-z0-9-] with a single dash; a whole
    maximal run is consumed at once by dropWhile. Compared below against the
    scan subRuns taken from the code. -/
def specSubRuns : List Char → List Char
  | [] => []
  | c :: cs =>
    if isAllowed c then c :: specSubRuns cs
    else '-' :: specSubRuns (cs.dropWhile (fun d => !isAllowed d))
termination_by l => l.length
decreasing_by
  · simp only [List.length_cons]
    omega
  · simp only [List.length_cons]
    have := length_dropWhile_le (fun d => !isAllowed d) cs
    omega

theorem subRunsAux_true_eq (cs : List Char) :
    subRunsAux true cs = subRunsAux false (cs.dropWhile (fun d => !isAllowed d)) := by
  induction cs with
  | nil => rfl
  | cons a cs ih =>
    by_cases ha : isAllowed a
    · rw [List.dropWhile_cons, if_neg (by simp [ha])]
      simp [subRunsAux, ha]
    · rw [List.dropWhile_cons, if_pos (by simp [ha])]
      rw [← ih]
      simp [subRunsAux, ha]

theorem specSubRuns_eq_aux :
    ∀ (n : Nat) (l : List Char), l.length ≤ n → specSubRuns l = subRunsAux false l := by
  intro n
  induction n with
  | zero =>
    intro l h
    have : l = [] := List.length_eq_zero.mp (Nat.le_zero.mp h)
    subst this
    simp [specSubRuns, subRunsAux]
  | succ n ih =>
    intro l h
    cases l with
    | nil => simp [specSubRuns, subRunsAux]
    | cons c cs =>
      rw [specSubRuns]
      by_cases hc : isAllowed c
      · rw [if_pos hc, ih cs (by simpa using h)]
        simp [subRunsAux, hc]
      · rw [if_neg hc]
        have hlen : (cs.dropWhile (fun d => !isAllowed d)).length ≤ n :=
          le_trans (length_dropWhile_le _ cs) (by simpa using h)
        rw [ih _ hlen, ← subRunsAux_true_eq cs]
        simp [subRunsAux, hc]

theorem specSubRuns_eq_subRuns (l : List Char) : specSubRuns l = subRuns l :=
  specSubRuns_eq_aux l.length l (Nat.le_refl _)

/- Section: the sanitizer claims. -/

theorem mem_stripDash_subRuns_allowed {l : List Char} {c : Char}
    (h : c ∈ stripDash (subRuns l)) : isAllowed c = true :=
  mem_subRunsAux_allowed l false (mem_stripDash h)

theorem isAlnum_of_allowed_not_dash {c : Char} (h : isAllowed c = true)
    (hd : (c == '-') = false) : isAlnum c = true := by
  simp only [isAllowed, Bool.or_eq_true] at h
  rcases h with h | h
  · simp only [isAlnum, Bool.or_eq_true]
    exact h
  · rw [h] at hd; exact absurd hd (by simp)

theorem matchesNamePattern_stripDash {l : List Char}
    (hne : (stripDash (subRuns l)).isEmpty = false) :
    matchesNamePattern (String.mk (stripDash (subRuns l))) = true := by
  rcases hcs : stripDash (subRuns l) with _ | ⟨c, cs⟩
  · rw [hcs] at hne; cases hne
  · simp only [matchesNamePattern, String.mk]
    have hall : ∀ d ∈ c :: cs, isAllowed d = true := by
      intro d hd
      rw [← hcs] at hd
      exact mem_stripDash_subRuns_allowed hd
    have hhead : isAlnum c = true := by
      apply isAlnum_of_allowed_not_dash (hall c (List.mem_cons_self c cs))
      apply stripDash_head? (l := subRuns l)
      rw [hcs]; rfl
    have hlastsome : (c :: cs).getLast?.isSome = true :=
      List.getLast?_isSome.mpr (by simp)
    rcases hg : (c :: cs).getLast? with _ | d
    · rw [hg] at hlastsome; cases hlastsome
    · have hdmem : d ∈ c :: cs := List.mem_of_mem_getLast? hg
      have hlast : isAlnum d = true := by
        apply isAlnum_of_allowed_not_dash (hall d hdmem)
        apply stripDash_getLast? (l := subRuns l)
        rw [hcs]; exact hg
      simp [List.all_eq_true, hg, hhead, hlast, hall]
      intro a ha
      exact hall a (List.mem_cons_of_mem c ha)

/-- C2: sanitize_name lower-cases its input, replaces every maximal run of
    characters outside [a-z0-9-] with a single dash, strips leading and
    trailing dashes, and falls back to the literal "container" when the
    result is empty; consequently every output matches
    ^[a-z0-9]([a-z0-9-]*[a-z0-9])?$ or equals the fallback literal. -/
theorem C2_sanitize_name_spec (x : String) :
    (sanitize_name x =
      (if (stripDash (specSubRuns (x.data.map Char.toLower))).isEmpty then "container"
       else String.mk (stripDash (specSubRuns (x.data.map Char.toLower)))))
    ∧ (matchesNamePattern (sanitize_name x) = true ∨ sanitize_name x = "container") := by
  constructor
  · rw [specSubRuns_eq_subRuns]
    rfl
  · simp only [sanitize_name]
    by_cases he : (stripDash (subRuns (x.data.map Char.toLower))).isEmpty
    · right
      rw [if_pos he]
    · left
      rw [if_neg he]
      exact matchesNamePattern_stripDash (Bool.not_eq_true _ ▸ Bool.of_not_eq_true he)

/-- C3: sanitize_name is idempotent. -/
theorem C3_sanitize_name_idempotent (x : String) :
    sanitize_name (sanitize_name x) = sanitize_name x := by
  by_cases he : (stripDash (subRuns (x.data.map Char.toLower))).isEmpty
  · have h1 : sanitize_name x = "container" := by
      simp only [sanitize_name]
      rw [if_pos he]
    rw [h1]
    decide
  · have h1 : sanitize_name x = String.mk (stripDash (subRuns (x.data.map Char.toLower))) := by
      simp only [sanitize_name]
      rw [if_neg he]
    rcases hcs : stripDash (subRuns (x.data.map Char.toLower)) with _ | ⟨c, cs⟩
    · rw [hcs] at he; exact absurd rfl he
    · rw [h1, hcs]
      have hall : ∀ d ∈ c :: cs, isAllowed d = true := by
        intro d hd
        rw [← hcs] at hd
        exact mem_stripDash_subRuns_allowed hd
      have hdata : (String.mk (c :: cs)).data = c :: cs := rfl
      simp only [sanitize_name, hdata]
      have hmap : (c :: cs).map Char.toLower = c :: cs := by
        have : ∀ d ∈ c :: cs, Char.toLower d = id d := fun d hd => toLower_of_allowed (hall d hd)
        rw [List.map_congr_left this, List.map_id]
      rw [hmap]
      have hsub : subRuns (c :: cs) = c :: cs := subRunsAux_of_allowed (c :: cs) false hall
      rw [show subRuns (c :: cs) = subRunsAux false (c :: cs) from rfl] at hsub
      rw [show subRuns (c :: cs) = subRunsAux false (c :: cs) from rfl, hsub]
      have hstrip : stripDash (c :: cs) = c :: cs := by
        apply stripDash_eq_self
        · intro d hd
          apply stripDash_head? (l := subRuns (x.data.map Char.toLower))
          rw [hcs]
          exact hd
        · intro d hd
          apply stripDash_getLast? (l := subRuns (x.data.map Char.toLower))
          rw [hcs]
          exact hd
      rw [hstrip]
      rfl

/- Section: environment mapping (transform_env). -/

/-- One name/value pair of a container env list. -/
structure EnvEntry where
  name : String
  value : String
deriving DecidableEq

/-- Python item.split("=", 1): the part before the first equals sign and
    everything after it. Meaningful only when the item contains one. -/
def splitFirstEq (item : String) : String × String :=
  (String.mk (item.data.takeWhile (fun c => c != '=')),
   String.mk ((item.data.dropWhile (fun c => c != '=')).drop 1))

/-- transform_env from portainer_to_k8s.py: each entry with an equals sign
    is split at the first one; an entry without one yields an empty value. -/
def transform_env (env_list : List String) : List EnvEntry :=
  env_list.map fun item =>
    if item.data.contains '=' then
      { name := (splitFirstEq item).1, value := (splitFirstEq item).2 }
    else
      { name := item, value := "" }

theorem dropWhile_ne_of_contains {l : List Char} {a : Char} (h : l.contains a = true) :
    ∃ t, l.dropWhile (fun c => c != a) = a :: t := by
  induction l with
  | nil => simp at h
  | cons b l ih =>
    by_cases hb : (b == a) = true
    · have : b = a := beq_iff_eq.mp hb
      subst this
      exact ⟨l, by rw [List.dropWhile_cons, if_neg (by simp)]⟩
    · have hc : l.contains a = true := by
        simp only [List.contains_cons, Bool.or_eq_true] at h
        rcases h with h | h
        · have : a = b := beq_iff_eq.mp h
          subst this
          simp at hb
        · exact h
      obtain ⟨t, ht⟩ := ih hc
      refine ⟨t, ?_⟩
      rw [List.dropWhile_cons, if_pos (by simpa using hb), ht]

theorem takeWhile_ne_contains_false (l : List Char) (a : Char) :
    (l.takeWhile (fun c => c != a)).contains a = false := by
  rw [← Bool.not_eq_true]
  intro hc
  have hmem := List.mem_of_elem_eq_true hc
  have := List.mem_takeWhile_imp hmem
  simp at this

/-- C4: transform_env returns one name/value pair per entry, in order, with
    no failure mode and no deduplication: an entry containing an equals sign
    is split at the first one (name before it, value everything after), and
    an entry without one maps to the pair (entry, ""). -/
theorem C4_transform_env_spec (l : List String) :
    (transform_env l).length = l.length ∧
    ∀ (i : Nat) (item : String), l[i]? = some item →
      ∃ e : EnvEntry, (transform_env l)[i]? = some e ∧
        (item.data.contains '=' = true →
          e.name.data ++ '=' :: e.value.data = item.data ∧
            e.name.data.contains '=' = false) ∧
        (item.data.contains '=' = false → e.name = item ∧ e.value = "") := by
  constructor
  · exact List.length_map _ _
  · intro i item hi
    rw [transform_env, List.getElem?_map, hi, Option.map_some']
    by_cases hc : item.data.contains '=' = true
    · rw [if_pos hc]
      refine ⟨_, rfl, fun _ => ?_, fun hfalse => by rw [hc] at hfalse; exact absurd hfalse (by simp)⟩
      obtain ⟨t, ht⟩ := dropWhile_ne_of_contains hc
      constructor
      · show (item.data.takeWhile (fun c => c != '=')) ++ '=' ::
            ((item.data.dropWhile (fun c => c != '=')).drop 1) = item.data
        rw [ht]
        simpa [ht] using List.takeWhile_append_dropWhile
          (p := fun c => c != '=') (l := item.data)
      · exact takeWhile_ne_contains_false item.data '='
    · rw [if_neg hc]
      exact ⟨_, rfl, fun htrue => absurd htrue hc, fun _ => ⟨rfl, rfl⟩⟩

/-- Witness for C4 at the spec's own example list ["A=1", "B"]. -/
theorem C4_transform_env_witness :
    (∃ e : EnvEntry, (transform_env ["A=1", "B"])[0]? = some e ∧
        (("A=1" : String).data.contains '=' = true →
          e.name.data ++ '=' :: e.value.data = ("A=1" : String).data ∧
            e.name.data.contains '=' = false) ∧
        (("A=1" : String).data.contains '=' = false → e.name = "A=1" ∧ e.value = "")) ∧
    transform_env ["A=1", "B"] = [⟨"A", "1"⟩, ⟨"B", ""⟩] :=
  ⟨(C4_transform_env_spec ["A=1", "B"]).2 0 "A=1" (by decide), by decide⟩

/- Section: Python truthiness helpers for optional fields. -/

/-- Python truthiness of an optional string: present and non-empty. -/
def truthyStr : Option String → Bool
  | some s => !s.isEmpty
  | none => false

/-- Python `a or b` where a is an optional string: a when truthy, else b. -/
def orStr (a : Option String) (b : String) : String :=
  match a with
  | some s => if s.isEmpty then b else s
  | none => b

/- Section: volume mapping (build_volumes). -/

/-- The fields of a Docker mount descriptor read by build_volumes. The
    descriptor key "Type" is embedded as the field Type'. -/
structure Mount where
  Name : Option String := none
  Source : Option String := none
  Destination : Option String := none
  Type' : Option String := none
  RW : Option Bool := none
  ReadOnly : Option Bool := none
  Propagation : Option String := none
deriving DecidableEq

/-- A volumeMounts entry of the container spec; readOnly is the optional
    key, present exactly when the code sets it. -/
structure VolumeMount where
  name : String
  mountPath : String
  readOnly : Option Bool := none
deriving DecidableEq

/-- The single volume source emitted per pod-level volume. -/
inductive VolumeSource where
  | hostPath (path : String) (type : String)
  | persistentVolumeClaim (claimName : String)
deriving DecidableEq

/-- A pod-level volume definition. -/
structure Volume where
  name : String
  source : VolumeSource
deriving DecidableEq

/-- The pair of lists returned by build_volumes. -/
structure VolumesResult where
  volumes : List Volume
  volume_mounts : List VolumeMount
deriving DecidableEq

/-- The name derived for the mount at a given position:
    sanitize_name(mount.Name or mount.Source or "vol-" + index). -/
def mount_name (index : Nat) (m : Mount) : String :=
  sanitize_name (orStr m.Name (orStr m.Source ("vol-" ++ toString index)))

/-- The loop of build_volumes from a given index onward. A volume-mount
    entry is recorded for every mount; a bind mount with an absent or empty
    Source then skips its volume definition (the `continue`), a bind mount
    with a source yields a hostPath volume, and any other mount yields a
    persistentVolumeClaim volume named like the mount. -/
def build_volumes_go (index : Nat) : List Mount → VolumesResult
  | [] => ⟨[], []⟩
  | m :: ms =>
    let rest := build_volumes_go (index + 1) ms
    let mountName := mount_name index m
    let volumeMount : VolumeMount :=
      { name := mountName,
        mountPath := m.Destination.getD "/data",
        readOnly :=
          if m.RW == some false || m.ReadOnly == some true then some true else none }
    if m.Type' == some "bind" then
      if truthyStr m.Source then
        { volumes :=
            { name := mountName,
              source := VolumeSource.hostPath (m.Source.getD "")
                (if truthyStr m.Propagation then "DirectoryOrCreate" else "Directory") }
              :: rest.volumes,
          volume_mounts := volumeMount :: rest.volume_mounts }
      else
        { volumes := rest.volumes, volume_mounts := volumeMount :: rest.volume_mounts }
    else
      { volumes :=
          { name := mountName, source := VolumeSource.persistentVolumeClaim mountName }
            :: rest.volumes,
        volume_mounts := volumeMount :: rest.volume_mounts }

/-- build_volumes from portainer_to_k8s.py. -/
def build_volumes (mounts : List Mount) : VolumesResult := build_volumes_go 0 mounts

/-- The derived mount names in input order, one per mount. -/
def derivedNames (index : Nat) : List Mount → List String
  | [] => []
  | m :: ms => mount_name index m :: derivedNames (index + 1) ms

/-- A mount emits a volume definition unless it is a bind mount whose
    Source is absent or empty. -/
def emitsVolume (m : Mount) : Bool :=
  !(m.Type' == some "bind" && !truthyStr m.Source)

/-- The names of the emitted volume definitions, in input order. -/
def volumeNames (index : Nat) : List Mount → List String
  | [] => []
  | m :: ms =>
    (if emitsVolume m then [mount_name index m] else []) ++ volumeNames (index + 1) ms

theorem build_volumes_go_names (i : Nat) (ms : List Mount) :
    (build_volumes_go i ms).volume_mounts.map VolumeMount.name = derivedNames i ms ∧
    (build_volumes_go i ms).volumes.map Volume.name = volumeNames i ms := by
  induction ms generalizing i with
  | nil => exact ⟨rfl, rfl⟩
  | cons m ms ih =>
    simp only [build_volumes_go, derivedNames, volumeNames, emitsVolume]
    by_cases hb : (m.Type' == some "bind") = true
    · by_cases hs : truthyStr m.Source = true
      · simp [hb, hs, (ih (i + 1)).1, (ih (i + 1)).2]
      · simp [hb, hs, (ih (i + 1)).1, (ih (i + 1)).2]
    · simp [hb, (ih (i + 1)).1, (ih (i + 1)).2]

/-- C7: the per-mount translation cases of build_volumes. Every mount yields
    one volume-mount entry with the derived name, mountPath Destination
    (default "/data"), and readOnly = true exactly when RW is explicitly
    false or ReadOnly is set. A bind mount with absent/empty Source emits no
    volume; a bind mount with a source emits a hostPath volume whose type is
    "DirectoryOrCreate" when a Propagation setting is truthy and "Directory"
    otherwise; any non-bind mount emits a persistentVolumeClaim volume whose
    claimName is the derived name. -/
theorem C7_build_volumes_cases (i : Nat) (m : Mount) :
    (∃ vm : VolumeMount, (build_volumes_go i [m]).volume_mounts = [vm] ∧
      vm.name = mount_name i m ∧
      vm.mountPath = m.Destination.getD "/data" ∧
      (vm.readOnly = some true ↔ (m.RW = some false ∨ m.ReadOnly = some true)) ∧
      (vm.readOnly = some true ∨ vm.readOnly = none)) ∧
    (m.Type' = some "bind" → truthyStr m.Source = false →
      (build_volumes_go i [m]).volumes = []) ∧
    (∀ src : String, m.Type' = some "bind" → m.Source = some src → src.isEmpty = false →
      (build_volumes_go i [m]).volumes =
        [{ name := mount_name i m,
           source := VolumeSource.hostPath src
             (if truthyStr m.Propagation then "DirectoryOrCreate" else "Directory") }]) ∧
    (m.Type' ≠ some "bind" →
      (build_volumes_go i [m]).volumes =
        [{ name := mount_name i m,
           source := VolumeSource.persistentVolumeClaim (mount_name i m) }]) := by
  refine ⟨?_, ?_, ?_, ?_⟩
  · refine ⟨⟨mount_name i m, m.Destination.getD "/data",
        if m.RW == some false || m.ReadOnly == some true then some true else none⟩,
      ?_, rfl, rfl, ?_, ?_⟩
    · simp only [build_volumes_go]
      by_cases hb : (m.Type' == some "bind") = true
      · by_cases hs : truthyStr m.Source = true
        · simp [hb, hs]
        · simp [hb, hs]
      · simp [hb]
    · by_cases hro : (m.RW == some false || m.ReadOnly == some true) = true
      · simp only [hro, if_true]
        constructor
        · intro _
          simpa using hro
        · intro _
          trivial
      · have hrob : (m.RW == some false || m.ReadOnly == some true) = false :=
          Bool.of_not_eq_true hro
        simp only [hrob, Bool.false_eq_true, if_false]
        constructor
        · intro h
          exact absurd h (by simp)
        · intro h
          exfalso
          rcases h with h | h <;> simp [h] at hrob
    · by_cases hro : (m.RW == some false || m.ReadOnly == some true) = true
      · left
        simp only [hro, if_true]
      · right
        have hrob : (m.RW == some false || m.ReadOnly == some true) = false :=
          Bool.of_not_eq_true hro
        simp only [hrob, Bool.false_eq_true, if_false]
  · intro hb hs
    simp [build_volumes_go, hb, hs]
  · intro src hb hsrc hne
    simp [build_volumes_go, hb, hsrc, truthyStr, hne]
  · intro hb
    have hb' : (m.Type' == some "bind") = false := by
      rw [← Bool.not_eq_true]
      intro h
      exact hb (beq_iff_eq.mp h)
    simp [build_volumes_go, hb']

/-- Witness for C7: a propagating bind mount emits a DirectoryOrCreate
    hostPath volume, a sourceless bind mount emits no volume, and a named
    volume mount emits a claim-backed volume named like itself. -/
theorem C7_build_volumes_witness :
    (build_volumes_go 0
        [{ Source := some "/s", Destination := some "/app",
           Type' := some "bind", Propagation := some "rprivate" }]).volumes =
      [{ name := "s", source := VolumeSource.hostPath "/s" "DirectoryOrCreate" }] ∧
    (build_volumes_go 0
        [{ Destination := some "/x", Type' := some "bind" }]).volumes = [] ∧
    (build_volumes_go 0
        [{ Name := some "cache", Destination := some "/cache",
           Type' := some "volume", RW := some false }]).volumes =
      [{ name := "cache", source := VolumeSource.persistentVolumeClaim "cache" }] :=
  ⟨(C7_build_volumes_cases 0
      { Source := some "/s", Destination := some "/app",
        Type' := some "bind", Propagation := some "rprivate" }).2.2.1 "/s" rfl rfl rfl,
   (C7_build_volumes_cases 0
      { Destination := some "/x", Type' := some "bind" }).2.1 rfl rfl,
   (C7_build_volumes_cases 0
      { Name := some "cache", Destination := some "/cache",
        Type' := some "volume", RW := some false }).2.2.2 (by decide)⟩

/-- Counterexample for C8 as stated: a bind mount with no Source yields a
    volume-mount entry with zero (not exactly one) matching volume
    definitions. -/
theorem C8_counterexample :
    ∃ vm ∈ (build_volumes
        [{ Destination := some "/x", Type' := some "bind" }]).volume_mounts,
      ((build_volumes [{ Destination := some "/x", Type' := some "bind" }]).volumes.countP
        (fun v => v.name == vm.name)) ≠ 1 := by
  decide

/-- C8 amended: the volume-mount entries carry the derived names, one per
    mount; the volume definitions carry, in the same order, the derived
    names of exactly the volume-emitting mounts (every mount except a bind
    mount with absent/empty Source), so each volume bears the name of its
    mount's volume-mount entry. -/
theorem C8_amended_correspondence (ms : List Mount) :
    (build_volumes ms).volume_mounts.map VolumeMount.name = derivedNames 0 ms ∧
    (build_volumes ms).volumes.map Volume.name = volumeNames 0 ms :=
  build_volumes_go_names 0 ms

/-- Counterexample for C9 as stated: two mounts that share a Name derive the
    same sanitized mount name, so the derived names are not pairwise
    distinct. -/
theorem C9_counterexample :
    ¬ ((build_volumes [{ Name := some "a" }, { Name := some "a" }]).volume_mounts.map
        VolumeMount.name).Nodup := by
  decide

/-- C9 amended: the mount names derived by build_volumes are
    sanitize_name(Name or Source or "vol-" + index), and the output order
    equals the input order of the mounts; the names are not pairwise
    distinct in general (mounts may share a Name or collide after
    sanitization). -/
theorem C9_amended_order (ms : List Mount) :
    (build_volumes ms).volume_mounts.map VolumeMount.name = derivedNames 0 ms :=
  (build_volumes_go_names 0 ms).1

/- Section: Python string/int primitives for the port mapper. -/

/-- Structural split of a character list on a separator character, the
    semantics of Python str.split with a one-character separator. -/
def splitOnChar (sep : Char) : List Char → List (List Char)
  | [] => [[]]
  | d :: ds =>
    let r := splitOnChar sep ds
    if d == sep then [] :: r
    else
      match r with
      | g :: gs => (d :: g) :: gs
      | [] => [[d]]

/-- Decimal value of a list of digit characters. -/
def digitsToNat (l : List Char) : Nat :=
  l.foldl (fun acc c => acc * 10 + (c.toNat - 48)) 0

/-- Unsigned part of Python int(): digit groups separated by single
    underscores, each group nonempty and all digits. -/
def pyIntCore (l : List Char) : Option Nat :=
  let groups := splitOnChar '_' l
  if groups.all (fun g => !g.isEmpty && g.all Char.isDigit) then
    some (digitsToNat groups.flatten)
  else none

/-- Python str.strip(): drop surrounding whitespace. -/
def trimChars (l : List Char) : List Char :=
  ((l.dropWhile Char.isWhitespace).reverse.dropWhile Char.isWhitespace).reverse

/-- Python int(s) in base 10: optional surrounding whitespace, an optional
    sign, then underscore-grouped digits; none where Python raises
    ValueError. -/
def pyInt (s : String) : Option Int :=
  match trimChars s.data with
  | '+' :: rest => (pyIntCore rest).map (fun n => (n : Int))
  | '-' :: rest => (pyIntCore rest).map (fun n => -(n : Int))
  | l => (pyIntCore l).map (fun n => (n : Int))

/-- Python int(s) as an Except: the error is the ValueError message. -/
def pyIntE (s : String) : Except String Int :=
  match pyInt s with
  | some n => Except.ok n
  | none => Except.error ("invalid literal for int with base 10: " ++ s)

/-- Python str.upper on the embedded character list. -/
def pyUpper (s : String) : String := String.mk (s.data.map Char.toUpper)

/- Section: port mapping (collect_ports). -/

/-- One host binding of an exposed port. -/
structure Binding where
  HostPort : Option String := none
deriving DecidableEq

/-- One entry of the derived Service ports list. -/
structure PortEntry where
  name : String
  port : Int
  targetPort : Int
  protocol : String
deriving DecidableEq

/-- The loop of collect_ports: each exposure key is split on "/"; a key that
    does not split into exactly two parts is skipped silently; the container
    port — and, when the first binding carries a truthy HostPort, that host
    port — is passed to int(), whose ValueError is not caught and so
    propagates as an error. -/
def collect_ports_go : List (String × List Binding) → Except String (List PortEntry)
  | [] => Except.ok []
  | (exposed, bindings) :: rest =>
    match (splitOnChar '/' exposed.data).map String.mk with
    | [container_port, protocol] => do
      let cp ← pyIntE container_port
      let port ←
        match bindings with
        | [] => Except.ok cp
        | binding :: _ =>
          match binding.HostPort with
          | some hp => if hp.isEmpty then Except.ok cp else pyIntE hp
          | none => Except.ok cp
      let restPorts ← collect_ports_go rest
      Except.ok
        ({ name := "port-" ++ container_port ++ "-" ++ protocol,
           port := port, targetPort := cp, protocol := pyUpper protocol } :: restPorts)
    | _ => collect_ports_go rest

/-- collect_ports from portainer_to_k8s.py; an absent or empty exposure map
    yields the empty list. -/
def collect_ports : Option (List (String × List Binding)) → Except String (List PortEntry)
  | none => Except.ok []
  | some pm => collect_ports_go pm

/-- The truthy HostPort declared by the first binding, if any. -/
def firstHostPort : List Binding → Option String
  | [] => none
  | b :: _ =>
    match b.HostPort with
    | some hp => if hp.isEmpty then none else some hp
    | none => none

/-- C5: the try/except of collect_ports only covers the key split, so a key
    with exactly one slash but a non-numeric port half reaches int()
    unprotected and raises ValueError ("abc/tcp"); a key with the wrong
    number of parts is skipped silently as claimed ("80"). -/
theorem C5_collect_ports_value_error :
    collect_ports (some [("abc/tcp", [])]) =
      Except.error ("invalid literal for int with base 10: abc") ∧
    collect_ports (some [("80", [])]) = Except.ok [] := by
  constructor
  · rfl
  · rfl

/-- C6: a well-formed exposure entry "<port>/<proto>" yields one entry whose
    targetPort is the numeric container port, protocol the upper-cased
    proto, and name "port-{containerPort}-{proto}"; port also equals the
    container port, unless the first binding declares a truthy HostPort, in
    which case port is that host port while targetPort is unchanged. -/
theorem C6_collect_ports_entry (exposed cp_s proto : String)
    (bindings : List Binding) (rest : List (String × List Binding))
    (cp : Int) (restPorts : List PortEntry)
    (hsplit : (splitOnChar '/' exposed.data).map String.mk = [cp_s, proto])
    (hcp : pyInt cp_s = some cp)
    (hrest : collect_ports_go rest = Except.ok restPorts) :
    (firstHostPort bindings = none →
      collect_ports_go ((exposed, bindings) :: rest) =
        Except.ok ({ name := "port-" ++ cp_s ++ "-" ++ proto,
                     port := cp, targetPort := cp, protocol := pyUpper proto } :: restPorts)) ∧
    (∀ (hp : String) (hpn : Int), firstHostPort bindings = some hp → pyInt hp = some hpn →
      collect_ports_go ((exposed, bindings) :: rest) =
        Except.ok ({ name := "port-" ++ cp_s ++ "-" ++ proto,
                     port := hpn, targetPort := cp, protocol := pyUpper proto } :: restPorts)) := by
  have hcpE : pyIntE cp_s = Except.ok cp := by
    rw [pyIntE, hcp]
  constructor
  · intro hfh
    rw [collect_ports_go, hsplit]
    cases bindings with
    | nil =>
      simp only [hcpE, hrest]
      rfl
    | cons b bs =>
      rcases hhp : b.HostPort with _ | hp
      · simp only [firstHostPort, hhp] at hfh
        simp only [hcpE, hrest, hhp]
        rfl
      · simp only [firstHostPort, hhp] at hfh
        by_cases he : hp.isEmpty = true
        · simp only [hcpE, hrest, hhp, he, if_true]
          rfl
        · rw [if_neg he] at hfh
          exact absurd hfh (by simp)
  · intro hp hpn hfh hhpn
    have hhpE : pyIntE hp = Except.ok hpn := by
      rw [pyIntE, hhpn]
    rw [collect_ports_go, hsplit]
    cases bindings with
    | nil => simp [firstHostPort] at hfh
    | cons b bs =>
      rcases hhp : b.HostPort with _ | hp'
      · simp [firstHostPort, hhp] at hfh
      · simp only [firstHostPort, hhp] at hfh
        by_cases he : hp'.isEmpty = true
        · rw [if_pos he] at hfh
          exact absurd hfh (by simp)
        · rw [if_neg he] at hfh
          have : hp' = hp := Option.some.injEq _ _ ▸ hfh
          subst this
          simp only [hcpE, hhp, he, hhpE, hrest, if_neg]
          rfl

/-- Witness for C6 at the spec's own examples: 80/tcp with host binding 8080
    maps to port 8080 with targetPort 80, and without bindings to
    port = targetPort = 80. -/
theorem C6_collect_ports_witness :
    collect_ports_go [("80/tcp", [{ HostPort := some "8080" }])] =
      Except.ok [{ name := "port-80-tcp", port := 8080, targetPort := 80, protocol := "TCP" }] ∧
    collect_ports_go [("80/tcp", [])] =
      Except.ok [{ name := "port-80-tcp", port := 80, targetPort := 80, protocol := "TCP" }] :=
  ⟨(C6_collect_ports_entry "80/tcp" "80" "tcp" [{ HostPort := some "8080" }] [] 80 []
      (by decide) (by decide) rfl).2 "8080" 8080 (by decide) (by decide),
   (C6_collect_ports_entry "80/tcp" "80" "tcp" [] [] 80 []
      (by decide) (by decide) rfl).1 rfl⟩

/- Section: manifest building (build_k8s_documents). -/

/-- Python truthiness of an optional list: present and non-empty. -/
def truthyList {α : Type} : Option (List α) → Bool
  | some l => !l.isEmpty
  | none => false

/-- The fields of the inspection document's Config section that the builder
    reads. -/
structure Config where
  Hostname : Option String := none
  Image : Option String := none
  Cmd : Option (List String) := none
  Entrypoint : Option (List String) := none
  Env : Option (List String) := none
deriving DecidableEq

/-- The NetworkSettings section: the port exposure map, an insertion-ordered
    association list. -/
structure NetworkSettings where
  Ports : Option (List (String × List Binding)) := none
deriving DecidableEq

/-- The container-inspection document as read by build_k8s_documents. -/
structure ContainerDetails where
  Config : Option Config := none
  Name : Option String := none
  Mounts : Option (List Mount) := none
  NetworkSettings : Option NetworkSettings := none
deriving DecidableEq

/-- One containerPort entry of the Deployment container spec. -/
structure ContainerPort where
  containerPort : Int
  protocol : String
deriving DecidableEq

/-- The single container spec of the generated Deployment; an optional key
    is none exactly when the code omits it. -/
structure ContainerSpec where
  name : String
  image : String
  args : Option (List String) := none
  command : Option (List String) := none
  env : Option (List EnvEntry) := none
  volumeMounts : Option (List VolumeMount) := none
  ports : Option (List ContainerPort) := none
deriving DecidableEq

/-- Resource metadata: a name and a target namespace. -/
structure Metadata where
  name : String
  namespace' : String
deriving DecidableEq

/-- The Deployment spec payload built by the code. -/
structure DeploymentSpec where
  replicas : Nat
  selectorMatchLabels : List (String × String)
  templateLabels : List (String × String)
  containers : List ContainerSpec
  volumes : Option (List Volume) := none
deriving DecidableEq

/-- The generated Deployment document. -/
structure Deployment where
  apiVersion : String
  kind : String
  metadata : Metadata
  spec : DeploymentSpec
deriving DecidableEq

/-- The Service spec payload built by the code. -/
structure ServiceSpec where
  selector : List (String × String)
  ports : List PortEntry
  type : String
deriving DecidableEq

/-- The generated Service document. -/
structure Service where
  apiVersion : String
  kind : String
  metadata : Metadata
  spec : ServiceSpec
deriving DecidableEq

/-- A generated document is either the Deployment or the Service. -/
inductive K8sDoc where
  | deployment : Deployment → K8sDoc
  | service : Service → K8sDoc
deriving DecidableEq

/-- The container name resolved by build_k8s_documents:
    sanitize_name(config.Hostname or container_details.Name-or-"app"). -/
def container_name_of (cd : ContainerDetails) : String :=
  sanitize_name (orStr (cd.Config.getD {}).Hostname (cd.Name.getD "app"))

/-- The container spec assembled by build_k8s_documents: optional keys are
    attached only when their section is truthy/non-empty, and the ports list
    projects each derived entry to its targetPort and protocol. -/
def container_spec_of (cd : ContainerDetails) (ports : List PortEntry) : ContainerSpec :=
  let config := cd.Config.getD {}
  let env_vars := transform_env (config.Env.getD [])
  let mounts := build_volumes (cd.Mounts.getD [])
  { name := container_name_of cd,
    image := config.Image.getD "image:latest",
    args := if truthyList config.Cmd then config.Cmd else none,
    command := if truthyList config.Entrypoint then config.Entrypoint else none,
    env := if env_vars.isEmpty then none else some env_vars,
    volumeMounts := if mounts.volume_mounts.isEmpty then none else some mounts.volume_mounts,
    ports :=
      if ports.isEmpty then none
      else some (ports.map (fun p => { containerPort := p.targetPort, protocol := p.protocol })) }

/-- The Deployment document assembled by build_k8s_documents. -/
def deployment_of (cd : ContainerDetails) (ns : String) (ports : List PortEntry) : Deployment :=
  let mounts := build_volumes (cd.Mounts.getD [])
  { apiVersion := "apps/v1",
    kind := "Deployment",
    metadata := { name := container_name_of cd, namespace' := ns },
    spec :=
      { replicas := 1,
        selectorMatchLabels := [("app", container_name_of cd)],
        templateLabels := [("app", container_name_of cd)],
        containers := [container_spec_of cd ports],
        volumes := if mounts.volumes.isEmpty then none else some mounts.volumes } }

/-- The Service document assembled by build_k8s_documents when at least one
    port was derived. -/
def service_of (cd : ContainerDetails) (ns : String) (ports : List PortEntry) : Service :=
  { apiVersion := "v1",
    kind := "Service",
    metadata := { name := container_name_of cd ++ "-svc", namespace' := ns },
    spec :=
      { selector := [("app", container_name_of cd)],
        ports := ports,
        type := "ClusterIP" } }

/-- build_k8s_documents from portainer_to_k8s.py: derive the ports (whose
    uncaught ValueError propagates), then return the Deployment alone when
    no port was derived and Deployment-then-Service otherwise. -/
def build_k8s_documents (cd : ContainerDetails) (ns : String) :
    Except String (List K8sDoc) := do
  let ports ← collect_ports ((cd.NetworkSettings.getD {}).Ports)
  if ports.isEmpty then
    return [K8sDoc.deployment (deployment_of cd ns ports)]
  else
    return [K8sDoc.deployment (deployment_of cd ns ports),
            K8sDoc.service (service_of cd ns ports)]

/-- C1: given the derived port list, build_k8s_documents returns exactly the
    Deployment when the list is empty, and exactly Deployment then Service
    when it is not; the Service has type ClusterIP, metadata name
    "{container-name}-svc", and a selector equal to the Deployment's
    pod-template label ("app", container-name). -/
theorem C1_build_k8s_documents_shape (cd : ContainerDetails) (ns : String)
    (ports : List PortEntry)
    (hports : collect_ports ((cd.NetworkSettings.getD {}).Ports) = Except.ok ports) :
    (ports = [] →
      build_k8s_documents cd ns = Except.ok [K8sDoc.deployment (deployment_of cd ns ports)]) ∧
    (ports ≠ [] →
      build_k8s_documents cd ns =
        Except.ok [K8sDoc.deployment (deployment_of cd ns ports),
                   K8sDoc.service (service_of cd ns ports)] ∧
      (service_of cd ns ports).spec.type = "ClusterIP" ∧
      (service_of cd ns ports).metadata.name = (deployment_of cd ns ports).metadata.name ++ "-svc" ∧
      (deployment_of cd ns ports).spec.templateLabels =
        [("app", (deployment_of cd ns ports).metadata.name)] ∧
      (service_of cd ns ports).spec.selector = (deployment_of cd ns ports).spec.templateLabels) := by
  constructor
  · rintro rfl
    rw [build_k8s_documents, hports]
    rfl
  · intro hne
    rcases hp : ports with _ | ⟨p, ps⟩
    · exact absurd hp hne
    · subst hp
      refine ⟨?_, rfl, rfl, rfl, rfl⟩
      rw [build_k8s_documents, hports]
      rfl

/-- Witness for C1: an inspection document with no exposure map yields the
    single Deployment document, and one with an exposed bound port yields
    Deployment then Service. -/
theorem C1_build_k8s_documents_witness :
    build_k8s_documents {} "default" =
      Except.ok [K8sDoc.deployment (deployment_of {} "default" [])] ∧
    build_k8s_documents
        { NetworkSettings := some { Ports := some [("80/tcp", [{ HostPort := some "8080" }])] } }
        "default" =
      Except.ok
        [K8sDoc.deployment
          (deployment_of
            { NetworkSettings := some { Ports := some [("80/tcp", [{ HostPort := some "8080" }])] } }
            "default"
            [{ name := "port-80-tcp", port := 8080, targetPort := 80, protocol := "TCP" }]),
         K8sDoc.service
          (service_of
            { NetworkSettings := some { Ports := some [("80/tcp", [{ HostPort := some "8080" }])] } }
            "default"
            [{ name := "port-80-tcp", port := 8080, targetPort := 80, protocol := "TCP" }])] :=
  ⟨(C1_build_k8s_documents_shape {} "default" [] rfl).1 rfl,
   ((C1_build_k8s_documents_shape
      { NetworkSettings := some { Ports := some [("80/tcp", [{ HostPort := some "8080" }])] } }
      "default"
      [{ name := "port-80-tcp", port := 8080, targetPort := 80, protocol := "TCP" }]
      rfl).2 (by decide)).1⟩

/-- C10: when ports were derived, every containerPort of the Deployment's
    container spec is the entry's container-internal targetPort, while the
    Service keeps the full entries; a HostPort override therefore changes
    only the Service port, never the Deployment containerPort. -/
theorem C10_deployment_container_ports (cd : ContainerDetails) (ns : String)
    (ports : List PortEntry)
    (hports : collect_ports ((cd.NetworkSettings.getD {}).Ports) = Except.ok ports)
    (hne : ports ≠ []) :
    ∃ (dep : Deployment) (svc : Service),
      build_k8s_documents cd ns = Except.ok [K8sDoc.deployment dep, K8sDoc.service svc] ∧
      (∀ c ∈ dep.spec.containers,
        c.ports =
          some (ports.map (fun p => { containerPort := p.targetPort, protocol := p.protocol }))) ∧
      svc.spec.ports = ports := by
  refine ⟨deployment_of cd ns ports, service_of cd ns ports, ?_, ?_, rfl⟩
  · rcases hp : ports with _ | ⟨p, ps⟩
    · exact absurd hp hne
    · subst hp
      rw [build_k8s_documents, hports]
      rfl
  · intro c hc
    rcases hp : ports with _ | ⟨p, ps⟩
    · exact absurd hp hne
    · subst hp
      have : c = container_spec_of cd (p :: ps) := by
        simpa [deployment_of] using hc
      subst this
      rfl

/-- Witness for C10: with the exposure entry 80/tcp bound to host port 8080,
    the Deployment's containerPort stays 80 while the Service's port becomes
    8080. -/
theorem C10_deployment_container_ports_witness :
    ∃ (dep : Deployment) (svc : Service),
      build_k8s_documents
          { NetworkSettings := some { Ports := some [("80/tcp", [{ HostPort := some "8080" }])] } }
          "default" =
        Except.ok [K8sDoc.deployment dep, K8sDoc.service svc] ∧
      (∀ c ∈ dep.spec.containers,
        c.ports = some [{ containerPort := 80, protocol := "TCP" }]) ∧
      svc.spec.ports = [{ name := "port-80-tcp", port := 8080, targetPort := 80, protocol := "TCP" }] :=
  C10_deployment_container_ports
    { NetworkSettings := some { Ports := some [("80/tcp", [{ HostPort := some "8080" }])] } }
    "default"
    [{ name := "port-80-tcp", port := 8080, targetPort := 80, protocol := "TCP" }]
    rfl (by decide)

end PortainerToK8s
